import Mathlib

/-!
Verification development for the Ts-Langchain-Crawling repository
(`src/index.ts`): a single-pass retrieval-augmented summarization
pipeline (fetch a news page, chunk, embed, index, retrieve, summarize,
persist).  The orchestrator in `src/index.ts` delegates chunking,
indexing and provider calls to libraries; those collaborators are
modelled from the specification where noted, while the orchestrator's
own behaviour (logging, the two HTTP fetches, persistence keys) is
embedded directly from the source.
-/

/-- Provider failure kinds (spec §4.2, §7). -/
inductive ProviderError where
  | rateLimited
  | unauthorized
  | unavailable
deriving DecidableEq

/-- Error kinds that can terminate the pipeline (spec §7). -/
inductive ErrKind where
  | configError
  | fetchError
  | providerError (p : ProviderError)
  | emptyInputError
  | contextTooLargeError
deriving DecidableEq

/-- Modelled from the spec: `RecursiveCharacterTextSplitter` is library
code not present under `src/`.  Spec §4.1: scan left to right, emit the
run of up to `maxSize` characters starting at the current position, and
begin the next chunk `maxSize - overlap` characters after the previous
chunk's start; the final chunk is whatever remains once the rest fits.
The preferred-boundary search is taken at its base case (raw character
cut); it does not affect chunk starts.  Chunks are recorded with their
start offset. -/
def chunkFrom (text : List Char) (maxSize stride : ℕ) (hs : 0 < stride) (pos : ℕ) :
    List (ℕ × List Char) :=
  if text.length ≤ pos + maxSize then
    [(pos, text.drop pos)]
  else
    (pos, (text.drop pos).take maxSize) :: chunkFrom text maxSize stride hs (pos + stride)
termination_by text.length - pos
decreasing_by omega

/-- Modelled from the spec: `TextChunker.split` (spec §4.1).  Fails with
`ConfigError` when `maxSize ≤ 0` or `overlap ≥ maxSize`; empty input
yields an empty sequence; otherwise chunks are produced by `chunkFrom`
with stride `maxSize - overlap`. -/
def TextChunker.split (text : List Char) (maxSize overlap : ℕ) :
    Except ErrKind (List (ℕ × List Char)) :=
  if h : 0 < maxSize ∧ overlap < maxSize then
    if text.isEmpty then .ok []
    else .ok (chunkFrom text maxSize (maxSize - overlap) (by omega) 0)
  else .error .configError

/-- Concatenation of chunks with the overlap-duplicated prefixes of all
chunks after the first removed (spec §8, round-trip property). -/
def reassemble (overlap : ℕ) : List (ℕ × List Char) → List Char
  | [] => []
  | c :: cs => c.2 ++ (cs.map (fun d => d.2.drop overlap)).flatten

/-- Dot product of two rational vectors. -/
def dot : List ℚ → List ℚ → ℚ
  | a :: as, b :: bs => a * b + dot as bs
  | _, _ => 0

/-- An embedded chunk held by the vector index: its embedding vector and
its chunk text (spec §3, `EmbeddedChunk`). -/
structure EmbEntry where
  vec : List ℚ
  chunk : String
deriving DecidableEq

/-- Modelled from the spec: similarity of an indexed entry to the query
vector.  Spec §4.3 uses cosine similarity, "equivalently normalized dot
product"; vectors are stored normalized, so the similarity is the dot
product with the query. -/
def simScore (q : List ℚ) (e : EmbEntry) : ℚ := dot q e.vec

/-- Ranking preorder on (insertion index, entry) pairs: higher
similarity first; ties broken by insertion order, non-strictly. -/
def rankLE (q : List ℚ) (a b : ℕ × EmbEntry) : Prop :=
  simScore q b.2 < simScore q a.2 ∨ (simScore q a.2 = simScore q b.2 ∧ a.1 ≤ b.1)

/-- Strict version of `rankLE`: higher similarity first, ties broken by
strictly smaller insertion index. -/
def rankLT (q : List ℚ) (a b : ℕ × EmbEntry) : Prop :=
  simScore q b.2 < simScore q a.2 ∨ (simScore q a.2 = simScore q b.2 ∧ a.1 < b.1)

instance (q : List ℚ) : DecidableRel (rankLE q) := fun a b => by
  unfold rankLE
  infer_instance

instance (q : List ℚ) : IsTotal (ℕ × EmbEntry) (rankLE q) where
  total a b := by
    unfold rankLE
    rcases lt_trichotomy (simScore q a.2) (simScore q b.2) with h | h | h
    · exact Or.inr (Or.inl h)
    · rcases Nat.le_total a.1 b.1 with h2 | h2
      · exact Or.inl (Or.inr ⟨h, h2⟩)
      · exact Or.inr (Or.inr ⟨h.symm, h2⟩)
    · exact Or.inl (Or.inl h)

instance (q : List ℚ) : IsTrans (ℕ × EmbEntry) (rankLE q) where
  trans a b c hab hbc := by
    unfold rankLE at *
    rcases hab with h1 | ⟨h1, h3⟩ <;> rcases hbc with h2 | ⟨h2, h4⟩
    · exact Or.inl (h2.trans h1)
    · exact Or.inl (h2 ▸ h1)
    · exact Or.inl (h1 ▸ h2)
    · exact Or.inr ⟨h1.trans h2, h3.trans h4⟩

/-- Modelled from the spec: `Index.query` (spec §4.3).  The HNSWLib
store and `vectorStore.asRetriever()` used at `src/index.ts:96-101` are
library code not present under `src/`; the spec prescribes brute-force
exact search: rank all indexed entries (tagged with their insertion
index) by descending similarity, ties by insertion order, and return
the first `k`. -/
def Index.query (entries : List EmbEntry) (q : List ℚ) (k : ℕ) : List (ℕ × EmbEntry) :=
  (List.insertionSort (rankLE q) entries.enum).take k

/-- Modelled from the spec: which provider errors are retryable
(spec §7): RateLimited and Unavailable are, Unauthorized is fatal. -/
def ProviderError.retryable : ProviderError → Bool
  | .unauthorized => false
  | _ => true

/-- Modelled from the spec: the retry loop around a provider call
(spec §7), with exponential backoff.  `remaining` counts the retries
still allowed, `attempt` numbers the calls from 0, `delays` accumulates
the backoff delays (newest first).  Returns the final result, the total
number of provider calls made, and the backoff delays in order. -/
def retryGo {α : Type} (call : ℕ → Except ProviderError α) (base : ℕ) :
    ℕ → ℕ → List ℕ → (Except ProviderError α) × ℕ × List ℕ
  | 0, attempt, delays =>
    match call attempt with
    | .ok a => (.ok a, attempt + 1, delays.reverse)
    | .error e => (.error e, attempt + 1, delays.reverse)
  | r + 1, attempt, delays =>
    match call attempt with
    | .ok a => (.ok a, attempt + 1, delays.reverse)
    | .error e =>
      if e.retryable then retryGo call base r (attempt + 1) (base * 2 ^ attempt :: delays)
      else (.error e, attempt + 1, delays.reverse)

/-- Modelled from the spec: a provider call retried with exponential
backoff up to `maxAttempts` total attempts (spec §7).  The
`OpenAIEmbeddings` client constructed at `src/index.ts:48-51` performs
these retries internally; its code is not under `src/`. -/
def callWithRetry {α : Type} (call : ℕ → Except ProviderError α) (maxAttempts base : ℕ) :
    (Except ProviderError α) × ℕ × List ℕ :=
  retryGo call base (maxAttempts - 1) 0 []

/-- Terminal state of the pipeline (spec §4.6). -/
inductive Outcome where
  | done
  | failed (e : ErrKind)
deriving DecidableEq

/-- Observable effects of one orchestrator run (spec §4.6): terminal
state, whether an Index was built, how many Summarize calls were made,
whether the final answer was persisted. -/
structure PipelineTrace where
  outcome : Outcome
  indexBuilt : Bool
  summarizeCalls : ℕ
  answerPersisted : Bool
deriving DecidableEq

/-- Modelled from the spec: the orchestrator's stage sequence
(spec §4.6, §7), as a function of the extraction result and of the
outcomes of the two provider stages.  Zero chunks fail with
`EmptyInputError` before any Index is built or Summarize is called; an
embed-stage error fails before the index exists; a summarize-stage
error fails after the single Summarize call, without persisting the
answer. -/
def runPipeline (chunks : List String) (embedRes : Except ErrKind (List (List ℚ)))
    (sumRes : Except ErrKind String) : PipelineTrace :=
  match chunks with
  | [] => ⟨.failed .emptyInputError, false, 0, false⟩
  | _ :: _ =>
    match embedRes with
    | .error e => ⟨.failed e, false, 0, false⟩
    | .ok _ =>
      match sumRes with
      | .error e => ⟨.failed e, true, 1, false⟩
      | .ok _ => ⟨.done, true, 1, true⟩

/-- Modelled from the spec: process exit code (spec §6): success
exactly on `Done`, non-zero on `Failed`. -/
def exitCode : Outcome → ℕ
  | .done => 0
  | .failed _ => 1

/-- Printable name of a terminal error kind. -/
def errKindName : ErrKind → String
  | .configError => "ConfigError"
  | .fetchError => "FetchError"
  | .providerError .rateLimited => "ProviderError.RateLimited"
  | .providerError .unauthorized => "ProviderError.Unauthorized"
  | .providerError .unavailable => "ProviderError.Unavailable"
  | .emptyInputError => "EmptyInputError"
  | .contextTooLargeError => "ContextTooLargeError"

/-- Modelled from the spec: what the process writes to its error stream
(spec §6): nothing on `Done`, the terminal error kind on `Failed`. -/
def stderrOf : Outcome → List String
  | .done => []
  | .failed e => [errKindName e]

/-- A wall-clock reading, as the calendar fields that
`moment().tz(...)` exposes to the `YYYY-MM-DD HH:mm:ss` format. -/
structure Moment where
  year : ℕ
  month : ℕ
  day : ℕ
  hour : ℕ
  minute : ℕ
  second : ℕ
deriving DecidableEq

/-- Two-digit zero-padded rendering of a calendar field (the `MM`,
`DD`, `HH`, `mm`, `ss` tokens of the moment format string for
in-range calendar values). -/
def pad2 (n : ℕ) : List Char := [Nat.digitChar (n / 10 % 10), Nat.digitChar (n % 10)]

/-- Four-digit zero-padded rendering of the year (`YYYY`). -/
def pad4 (n : ℕ) : List Char :=
  [Nat.digitChar (n / 1000 % 10), Nat.digitChar (n / 100 % 10),
   Nat.digitChar (n / 10 % 10), Nat.digitChar (n % 10)]

/-- The `m.format("YYYY-MM-DD HH:mm:ss")` rendering used by
`getCurrentTime` at `src/index.ts:38-41`. -/
def formatTimestamp (m : Moment) : List Char :=
  pad4 m.year ++ '-' :: (pad2 m.month ++ '-' :: (pad2 m.day ++ ' ' ::
    (pad2 m.hour ++ ':' :: (pad2 m.minute ++ ':' :: pad2 m.second))))

/-- Decides whether a character list has the shape
`YYYY-MM-DD HH:mm:ss`: 19 characters, digits in the date and time
positions, `-`, space and `:` separators. -/
def isTimestampFormat : List Char → Bool
  | [y1, y2, y3, y4, c1, o1, o2, c2, d1, d2, c3, h1, h2, c4, i1, i2, c5, s1, s2] =>
    y1.isDigit && y2.isDigit && y3.isDigit && y4.isDigit && (c1 == '-') &&
    o1.isDigit && o2.isDigit && (c2 == '-') && d1.isDigit && d2.isDigit &&
    (c3 == ' ') && h1.isDigit && h2.isDigit && (c4 == ':') &&
    i1.isDigit && i2.isDigit && (c5 == ':') && s1.isDigit && s2.isDigit
  | _ => false

/-- The single designated timezone passed to `moment().tz(...)` at
`src/index.ts:39`. -/
def seoulZone : String := "Asia/Seoul"

/-- The crawled domain, `config.domain` at `src/index.ts:20`. -/
def configDomain : String := "https://news.naver.com/section/100"

/-- The external world as `main` observes it: `performance.now()`
readings, `moment().tz(zone)` readings, the body returned by each HTTP
GET of `config.domain`, the cheerio `li` extraction, the splitter, and
the chain's answer text.  Each oracle is indexed by occurrence so that
distinct calls may observe distinct values. -/
structure Effects where
  perfNow : ℕ → ℚ
  wallClock : String → ℕ → Moment
  fetch : ℕ → String
  extractItems : String → List String
  splitDocs : List String → List String
  answerText : String

/-- The `getCurrentTime` helper at `src/index.ts:38-41`: format the
`n`-th wall-clock reading, taken in the `Asia/Seoul` zone. -/
def getCurrentTime (wallClock : String → ℕ → Moment) (n : ℕ) : List Char :=
  formatTimestamp (wallClock seoulZone n)

/-- One line emitted by `logTimeWriteOutStep`: elapsed seconds since
process start, the step number, and the message. -/
structure LogEntry where
  elapsed : ℚ
  step : ℕ
  message : String
deriving DecidableEq

/-- The mutable logging state of `src/index.ts:26-35`: the shared step
counter, the index of the next `performance.now()` reading, and the
lines logged so far. -/
structure LogState where
  currentStep : ℕ
  clockIdx : ℕ
  logs : List LogEntry
deriving DecidableEq

/-- `logTimeWriteOutStep` at `src/index.ts:30-35`: read the clock,
log elapsed seconds since `startTime` (reading 0) with the current step
counter and the message, then increment the counter. -/
def logTimeWriteOutStep (perfNow : ℕ → ℚ) (st : LogState) (msg : String) : LogState :=
  { currentStep := st.currentStep + 1
    clockIdx := st.clockIdx + 1
    logs := st.logs ++ [⟨(perfNow st.clockIdx - perfNow 0) / 1000, st.currentStep, msg⟩] }

/-- The messages logged by a successful run of `main`, in source order
(`src/index.ts:45-116`); the tenth interpolates the chain's answer. -/
def mainMessages (answer : String) : List String :=
  ["main 함수 시작",
   "OpenAI Embeddings 선언 및 할당 완료",
   "html 파일 가져오기 완료",
   "파일 생성 완료",
   "response.html 파일로 저장 완료",
   "html 파일 로드 완료",
   "Document 객체로 변환 완료",
   "Vector store 생성 완료",
   "QA chain 준비 완료",
   "QA 응답:\n " ++ answer,
   "요약 결과 저장 완료",
   "최종 실행 완료"]

/-- The log lines of a successful run: the counter starts at 1, the
clock was already read once for `startTime`. -/
def runLogs (perfNow : ℕ → ℚ) (answer : String) : List LogEntry :=
  ((mainMessages answer).foldl (logTimeWriteOutStep perfNow) ⟨1, 1, []⟩).logs

/-- The observable trace of one successful run of `main`
(`src/index.ts:43-117`). -/
structure MainTrace where
  logs : List LogEntry
  fetchUrls : List String
  cacheFileName : List Char
  cacheContent : String
  loadedContent : String
  chunks : List String
  recordFileName : List Char
  recordContent : String

/-- The effects of `main` (`src/index.ts:43-117`): fetch 0 is the
`axios.get(config.domain)` of line 55, whose body is written to the
cache file; fetch 1 is the independent request that
`CheerioWebBaseLoader(config.domain).load()` performs at lines 77-78,
whose extraction is split into the chunks that get indexed and
summarized; the cache and record file names are keyed by the two
`getCurrentTime()` calls (lines 72 and 111). -/
def runMain (eff : Effects) : MainTrace :=
  let rawHtml := eff.fetch 0
  let loadedHtml := eff.fetch 1
  let items := eff.extractItems loadedHtml
  { logs := runLogs eff.perfNow eff.answerText
    fetchUrls := [configDomain, configDomain]
    cacheFileName := getCurrentTime eff.wallClock 0 ++ "-response.html".toList
    cacheContent := rawHtml
    loadedContent := loadedHtml
    chunks := eff.splitDocs items
    recordFileName := getCurrentTime eff.wallClock 1 ++ "-record.txt".toList
    recordContent := eff.answerText }

/-- A concrete environment whose two fetches return different bodies
and whose clocks are constant. -/
def effZero : Effects :=
  { perfNow := fun _ => 0
    wallClock := fun _ _ => ⟨2024, 1, 1, 0, 0, 0⟩
    fetch := fun n => if n = 0 then "first" else "second"
    extractItems := fun _ => []
    splitDocs := fun l => l
    answerText := "" }

/-- Every chunk `chunkFrom` emits has length at most `maxSize`. -/
theorem chunkFrom_len (text : List Char) (maxSize stride : ℕ) (hs : 0 < stride) (pos : ℕ) :
    ∀ c ∈ chunkFrom text maxSize stride hs pos, c.2.length ≤ maxSize := by
  induction pos using chunkFrom.induct text maxSize stride hs with
  | case1 pos h =>
    intro c hc
    rw [chunkFrom, if_pos h] at hc
    simp only [List.mem_singleton] at hc
    subst hc
    simp only [List.length_drop]
    omega
  | case2 pos h ih =>
    intro c hc
    rw [chunkFrom, if_neg h] at hc
    rcases List.mem_cons.mp hc with rfl | hc
    · simp
    · exact ih c hc

/-- `chunkFrom` starting at `pos` emits a first chunk starting at `pos`. -/
theorem chunkFrom_cons (text : List Char) (maxSize stride : ℕ) (hs : 0 < stride) (pos : ℕ) :
    ∃ c cs, chunkFrom text maxSize stride hs pos = (pos, c) :: cs := by
  rw [chunkFrom]
  by_cases h : text.length ≤ pos + maxSize
  · exact ⟨_, _, by rw [if_pos h]⟩
  · exact ⟨_, _, by rw [if_neg h]⟩

/-- Chunk start offsets are strictly increasing. -/
theorem chunkFrom_starts (text : List Char) (maxSize stride : ℕ) (hs : 0 < stride) (pos : ℕ) :
    List.Chain' (· < ·) ((chunkFrom text maxSize stride hs pos).map Prod.fst) := by
  induction pos using chunkFrom.induct text maxSize stride hs with
  | case1 pos h =>
    rw [chunkFrom, if_pos h]
    simp
  | case2 pos h ih =>
    rw [chunkFrom, if_neg h]
    obtain ⟨c, cs, hc⟩ := chunkFrom_cons text maxSize stride hs (pos + stride)
    rw [hc] at ih ⊢
    simp only [List.map_cons] at ih ⊢
    exact List.chain'_cons.mpr ⟨by omega, ih⟩

/-- Each chunk is the slice of the source text at its start offset. -/
theorem chunkFrom_slice (text : List Char) (maxSize stride : ℕ) (hs : 0 < stride) (pos : ℕ) :
    ∀ c ∈ chunkFrom text maxSize stride hs pos, c.2 = (text.drop c.1).take c.2.length := by
  induction pos using chunkFrom.induct text maxSize stride hs with
  | case1 pos h =>
    intro c hc
    rw [chunkFrom, if_pos h] at hc
    simp only [List.mem_singleton] at hc
    subst hc
    exact (List.take_length _).symm
  | case2 pos h ih =>
    intro c hc
    rw [chunkFrom, if_neg h] at hc
    rcases List.mem_cons.mp hc with rfl | hc
    · simp only []
      rw [List.take_eq_take]
      simp [List.length_take]
    · exact ih c hc

/-- Dropping the first `overlap` characters of every chunk and
concatenating yields the source text from `pos + overlap` on. -/
theorem chunkFrom_drop_flatten (text : List Char) (maxSize stride overlap : ℕ)
    (hs : 0 < stride) (hso : stride + overlap = maxSize) (pos : ℕ) :
    ((chunkFrom text maxSize stride hs pos).map (fun d => d.2.drop overlap)).flatten =
      text.drop (pos + overlap) := by
  induction pos using chunkFrom.induct text maxSize stride hs with
  | case1 pos h =>
    rw [chunkFrom, if_pos h]
    simp [List.drop_drop]
  | case2 pos h ih =>
    rw [chunkFrom, if_neg h]
    simp only [List.map_cons, List.flatten_cons, ih, List.drop_take, List.drop_drop]
    have h1 : maxSize - overlap = stride := by omega
    have h2 : pos + stride + overlap = pos + overlap + stride := by omega
    rw [h1, h2]
    have h3 := List.take_append_drop stride (text.drop (pos + overlap))
    rw [List.drop_drop] at h3
    exact h3

/-- Reassembling the chunk list produced from offset 0 recovers the
whole text. -/
theorem chunkFrom_reassemble (text : List Char) (maxSize stride overlap : ℕ)
    (hs : 0 < stride) (hso : stride + overlap = maxSize) :
    reassemble overlap (chunkFrom text maxSize stride hs 0) = text := by
  rw [chunkFrom]
  by_cases h : text.length ≤ 0 + maxSize
  · rw [if_pos h]
    simp [reassemble]
  · rw [if_neg h]
    simp only [reassemble, List.drop_zero]
    rw [chunkFrom_drop_flatten text maxSize stride overlap hs hso (0 + stride)]
    have h0 : 0 + stride + overlap = maxSize := by omega
    rw [h0]
    exact List.take_append_drop maxSize text

/-- C3: for every input text and every valid pair (`maxSize > 0`,
`0 ≤ overlap < maxSize`), the splitter succeeds, every chunk it
produces has length at most `maxSize`, the chunk start offsets are
strictly increasing (forward progress), and each chunk is the slice of
the source text at its start offset. -/
theorem chunker_bounds_progress (text : List Char) (maxSize overlap : ℕ)
    (h1 : 0 < maxSize) (h2 : overlap < maxSize) :
    ∃ chunks, TextChunker.split text maxSize overlap = .ok chunks ∧
      (∀ c ∈ chunks, c.2.length ≤ maxSize) ∧
      List.Chain' (· < ·) (chunks.map Prod.fst) ∧
      (∀ c ∈ chunks, c.2 = (text.drop c.1).take c.2.length) := by
  unfold TextChunker.split
  rw [dif_pos ⟨h1, h2⟩]
  by_cases he : text.isEmpty
  · rw [if_pos he]
    exact ⟨[], rfl, by simp, by simp, by simp⟩
  · rw [if_neg he]
    exact ⟨_, rfl, chunkFrom_len text maxSize _ _ 0, chunkFrom_starts text maxSize _ _ 0,
      chunkFrom_slice text maxSize _ _ 0⟩

/-- Witness for C3 at a concrete input. -/
theorem chunker_bounds_progress_witness :
    0 < 2 ∧ 1 < 2 ∧
    (∃ chunks, TextChunker.split "abcde".toList 2 1 = .ok chunks ∧
      (∀ c ∈ chunks, c.2.length ≤ 2) ∧
      List.Chain' (· < ·) (chunks.map Prod.fst) ∧
      (∀ c ∈ chunks, c.2 = ("abcde".toList.drop c.1).take c.2.length)) :=
  ⟨by decide, by decide, chunker_bounds_progress "abcde".toList 2 1 (by decide) (by decide)⟩

/-- C8: round-trip: for every input text and valid (`maxSize`,
`overlap`), concatenating all chunks with the overlap-duplicated
prefixes of the later chunks removed reconstructs the input exactly. -/
theorem chunker_roundTrip (text : List Char) (maxSize overlap : ℕ)
    (h1 : 0 < maxSize) (h2 : overlap < maxSize) :
    ∃ chunks, TextChunker.split text maxSize overlap = .ok chunks ∧
      reassemble overlap chunks = text := by
  unfold TextChunker.split
  rw [dif_pos ⟨h1, h2⟩]
  by_cases he : text.isEmpty
  · rw [if_pos he]
    exact ⟨[], rfl, (List.isEmpty_iff.mp he).symm⟩
  · rw [if_neg he]
    exact ⟨_, rfl, chunkFrom_reassemble text maxSize (maxSize - overlap) overlap (by omega) (by omega)⟩

/-- Witness for C8 at a concrete input. -/
theorem chunker_roundTrip_witness :
    0 < 3 ∧ 1 < 3 ∧
    (∃ chunks, TextChunker.split "abcdefgh".toList 3 1 = .ok chunks ∧
      reassemble 1 chunks = "abcdefgh".toList) :=
  ⟨by decide, by decide, chunker_roundTrip "abcdefgh".toList 3 1 (by decide) (by decide)⟩

/-- C2: splitting any text of exactly 4500 characters with
`maxSize = 2000`, `overlap = 100` (the program's configuration) yields
exactly 3 chunks: chunk 1 covers offsets [0, 2000), chunk 2 starts at
offset 1900, chunk 3 starts at offset 3800 and ends at offset 4500. -/
theorem chunker_scenario (text : List Char) (h : text.length = 4500) :
    TextChunker.split text 2000 100 =
      .ok [(0, text.take 2000), (1900, (text.drop 1900).take 2000), (3800, text.drop 3800)] ∧
    ∀ chunks, TextChunker.split text 2000 100 = .ok chunks →
      chunks.map (fun c => (c.1, c.1 + c.2.length)) = [(0, 2000), (1900, 3900), (3800, 4500)] := by
  have hne : ¬ text.isEmpty = true := by
    rw [List.isEmpty_iff]
    intro e
    rw [e] at h
    simp at h
  have hsplit : TextChunker.split text 2000 100 =
      .ok [(0, text.take 2000), (1900, (text.drop 1900).take 2000), (3800, text.drop 3800)] := by
    unfold TextChunker.split
    rw [dif_pos (by omega), if_neg hne]
    norm_num
    rw [chunkFrom, if_neg (by omega), chunkFrom, if_neg (by omega), chunkFrom, if_pos (by omega)]
    norm_num
  refine ⟨hsplit, ?_⟩
  intro chunks hc
  rw [hsplit] at hc
  injection hc with hc
  subst hc
  simp [List.length_take, List.length_drop, h]

/-- Witness for C2 at a concrete 4500-character input. -/
theorem chunker_scenario_witness :
    (List.replicate 4500 'a').length = 4500 ∧
    (TextChunker.split (List.replicate 4500 'a') 2000 100 =
      .ok [(0, (List.replicate 4500 'a').take 2000),
           (1900, ((List.replicate 4500 'a').drop 1900).take 2000),
           (3800, (List.replicate 4500 'a').drop 3800)] ∧
     ∀ chunks, TextChunker.split (List.replicate 4500 'a') 2000 100 = .ok chunks →
       chunks.map (fun c => (c.1, c.1 + c.2.length)) = [(0, 2000), (1900, 3900), (3800, 4500)]) :=
  ⟨List.length_replicate 4500 'a', chunker_scenario (List.replicate 4500 'a') (List.length_replicate 4500 'a')⟩

/-- C1: for every built index and query vector, `Index.query` with
`k > 0` returns `min k n` entries; they are ranked by strictly
descending rank (descending similarity, ties by insertion order,
earlier-indexed first); every returned pair is an indexed entry with
its insertion index; every returned entry ranks at least as high as
every indexed entry left out (brute-force exact top-k); fewer than `k`
results are returned only if the index holds fewer than `k` entries;
and `k ≥ n` returns all entries in that ranking. -/
theorem query_spec (entries : List EmbEntry) (q : List ℚ) (k : ℕ) (hk : 0 < k) :
    (Index.query entries q k).length = min k entries.length ∧
    List.Sorted (rankLT q) (Index.query entries q k) ∧
    (∀ a ∈ Index.query entries q k, a ∈ entries.enum) ∧
    (∀ a ∈ Index.query entries q k, ∀ b ∈ entries.enum,
        b ∉ Index.query entries q k → rankLE q a b) ∧
    ((Index.query entries q k).length < k → entries.length < k) ∧
    (entries.length ≤ k → (Index.query entries q k).Perm entries.enum) := by
  classical
  set s := List.insertionSort (rankLE q) entries.enum with hs
  have hperm : s.Perm entries.enum := List.perm_insertionSort _ _
  have hsorted : List.Sorted (rankLE q) s := List.sorted_insertionSort _ _
  have hlen : s.length = entries.length := by
    rw [hperm.length_eq, List.enum_length]
  have hnodup : (s.map Prod.fst).Nodup := by
    have h0 : (entries.enum.map Prod.fst).Nodup := by
      rw [List.enum_map_fst]
      exact List.nodup_range _
    exact ((hperm.map Prod.fst).nodup_iff).mpr h0
  have hql : (Index.query entries q k).length = min k entries.length := by
    simp [Index.query, ← hs, List.length_take, hlen]
  refine ⟨hql, ?_, ?_, ?_, ?_, ?_⟩
  · have hpw : s.Pairwise (fun a b => rankLE q a b ∧ a.1 ≠ b.1) := by
      refine List.Pairwise.and hsorted ?_
      rw [List.Nodup, List.pairwise_map] at hnodup
      exact hnodup
    have hstrict : List.Sorted (rankLT q) s := by
      refine hpw.imp ?_
      rintro a b ⟨hab, hne⟩
      rcases hab with h | ⟨h, h2⟩
      · exact Or.inl h
      · exact Or.inr ⟨h, lt_of_le_of_ne h2 hne⟩
    show List.Sorted (rankLT q) (List.take k s)
    exact hstrict.take
  · intro a ha
    exact hperm.mem_iff.mp (List.take_subset k s ha)
  · intro a ha b hb hbn
    have hbs : b ∈ s := hperm.mem_iff.mpr hb
    have hsplit := (List.take_append_drop k s).symm
    have hpw := hsorted
    rw [List.Sorted, hsplit, List.pairwise_append] at hpw
    have hbd : b ∈ List.drop k s := by
      rw [hsplit] at hbs
      rcases List.mem_append.mp hbs with h | h
      · exact absurd h hbn
      · exact h
    exact hpw.2.2 a ha b hbd
  · intro hlt
    omega
  · intro hkk
    have hall : List.take k s = s := List.take_of_length_le (by omega)
    show (List.take k s).Perm entries.enum
    rw [hall]
    exact hperm

/-- Witness for C1 at a concrete two-entry index with tied scores. -/
theorem query_spec_witness :
    0 < 2 ∧
    ((Index.query [⟨[1], "a"⟩, ⟨[1], "b"⟩] [1] 2).length =
        min 2 ([⟨[1], "a"⟩, ⟨[1], "b"⟩] : List EmbEntry).length ∧
     List.Sorted (rankLT [1]) (Index.query [⟨[1], "a"⟩, ⟨[1], "b"⟩] [1] 2) ∧
     (∀ a ∈ Index.query [⟨[1], "a"⟩, ⟨[1], "b"⟩] [1] 2,
        a ∈ ([⟨[1], "a"⟩, ⟨[1], "b"⟩] : List EmbEntry).enum) ∧
     (∀ a ∈ Index.query [⟨[1], "a"⟩, ⟨[1], "b"⟩] [1] 2,
        ∀ b ∈ ([⟨[1], "a"⟩, ⟨[1], "b"⟩] : List EmbEntry).enum,
          b ∉ Index.query [⟨[1], "a"⟩, ⟨[1], "b"⟩] [1] 2 → rankLE [1] a b) ∧
     ((Index.query [⟨[1], "a"⟩, ⟨[1], "b"⟩] [1] 2).length < 2 →
        ([⟨[1], "a"⟩, ⟨[1], "b"⟩] : List EmbEntry).length < 2) ∧
     (([⟨[1], "a"⟩, ⟨[1], "b"⟩] : List EmbEntry).length ≤ 2 →
        (Index.query [⟨[1], "a"⟩, ⟨[1], "b"⟩] [1] 2).Perm
          ([⟨[1], "a"⟩, ⟨[1], "b"⟩] : List EmbEntry).enum)) :=
  ⟨by decide, query_spec [⟨[1], "a"⟩, ⟨[1], "b"⟩] [1] 2 (by decide)⟩

/-- The retry loop makes at most `attempt + remaining + 1` calls. -/
theorem retryGo_calls_le {α : Type} (call : ℕ → Except ProviderError α) (base : ℕ) :
    ∀ remaining attempt delays,
      (retryGo call base remaining attempt delays).2.1 ≤ attempt + remaining + 1 := by
  intro remaining
  induction remaining with
  | zero =>
    intro attempt delays
    rw [retryGo]
    cases call attempt with
    | ok a => simp
    | error e => simp
  | succ r ih =>
    intro attempt delays
    rw [retryGo]
    cases call attempt with
    | ok a => simp
    | error e =>
      dsimp only
      by_cases he : e.retryable
      · rw [if_pos he]
        calc (retryGo call base r (attempt + 1) _).2.1 ≤ attempt + 1 + r + 1 := ih _ _
          _ ≤ attempt + (r + 1) + 1 := by omega
      · rw [if_neg he]
        simp

/-- A provider that always fails with the same retryable error exhausts
every allowed attempt and then escalates that error. -/
theorem retryGo_exhaust {α : Type} (err : ProviderError) (he : err.retryable = true) (base : ℕ) :
    ∀ remaining attempt delays,
      (retryGo (fun _ => (.error err : Except ProviderError α)) base remaining attempt delays).1
        = .error err ∧
      (retryGo (fun _ => (.error err : Except ProviderError α)) base remaining attempt delays).2.1
        = attempt + remaining + 1 := by
  intro remaining
  induction remaining with
  | zero => intro attempt delays; simp [retryGo]
  | succ r ih =>
    intro attempt delays
    rw [retryGo]
    simp only [he, if_true]
    have h := ih (attempt + 1) (base * 2 ^ attempt :: delays)
    exact ⟨h.1, by rw [h.2]; omega⟩

/-- C5: with at least 3 allowed attempts, a provider that raises
RateLimited — and likewise one that raises Unavailable — on its first
two calls and succeeds on the third completes successfully with exactly
3 provider calls after two exponential backoff delays, and a provider
that always fails with that error escalates it to the caller only after
exhausting the full attempt budget; a provider that raises Unauthorized
on its first call is never retried (1 call, fatal); and the total
number of provider calls is always bounded by the attempt budget. -/
theorem retry_policy {α : Type} (v : α) (call : ℕ → Except ProviderError α)
    (maxAttempts base : ℕ) (hm : 3 ≤ maxAttempts) :
    (∀ err ∈ [ProviderError.rateLimited, ProviderError.unavailable],
      callWithRetry (fun n => if n < 2 then .error err else .ok v) maxAttempts base
        = (.ok v, 3, [base * 2 ^ 0, base * 2 ^ 1]) ∧
      (callWithRetry (fun _ => (.error err : Except ProviderError α)) maxAttempts base).1
        = .error err ∧
      (callWithRetry (fun _ => (.error err : Except ProviderError α)) maxAttempts base).2.1
        = maxAttempts) ∧
    (call 0 = .error .unauthorized →
      callWithRetry call maxAttempts base = (.error .unauthorized, 1, [])) ∧
    (callWithRetry call maxAttempts base).2.1 ≤ max 1 maxAttempts := by
  refine ⟨?_, ?_, ?_⟩
  · intro err herr
    have hret : err.retryable = true := by
      rcases List.mem_cons.mp herr with rfl | herr2
      · rfl
      · rcases List.mem_cons.mp herr2 with rfl | herr3
        · rfl
        · simp at herr3
    refine ⟨?_, ?_⟩
    · obtain ⟨r, hr⟩ : ∃ r, maxAttempts - 1 = r + 2 := ⟨maxAttempts - 3, by omega⟩
      unfold callWithRetry
      rw [hr]
      norm_num [retryGo, hret]
      cases r with
      | zero => norm_num [retryGo]
      | succ r2 => norm_num [retryGo]
    · have h := retryGo_exhaust (α := α) err hret base (maxAttempts - 1) 0 []
      unfold callWithRetry
      exact ⟨h.1, by rw [h.2]; omega⟩
  · intro hc
    unfold callWithRetry
    obtain ⟨r, hr⟩ : ∃ r, maxAttempts - 1 = r + 1 := ⟨maxAttempts - 2, by omega⟩
    rw [hr, retryGo, hc]
    simp [ProviderError.retryable]
  · unfold callWithRetry
    have h := retryGo_calls_le call base (maxAttempts - 1) 0 []
    omega

/-- Witness for C5 at the OpenAI client's attempt budget. -/
theorem retry_policy_witness :
    3 ≤ 6 ∧
    ((∀ err ∈ [ProviderError.rateLimited, ProviderError.unavailable],
      callWithRetry (fun n => if n < 2 then .error err else .ok (7 : ℕ)) 6 100
        = (.ok 7, 3, [100 * 2 ^ 0, 100 * 2 ^ 1]) ∧
      (callWithRetry (fun _ => (.error err : Except ProviderError ℕ)) 6 100).1 = .error err ∧
      (callWithRetry (fun _ => (.error err : Except ProviderError ℕ)) 6 100).2.1 = 6) ∧
    ((fun _ => (.error .unauthorized : Except ProviderError ℕ)) 0 = .error .unauthorized →
      callWithRetry (fun _ => (.error .unauthorized : Except ProviderError ℕ)) 6 100
        = (.error .unauthorized, 1, [])) ∧
    (callWithRetry (fun _ => (.error .unauthorized : Except ProviderError ℕ)) 6 100).2.1 ≤ max 1 6) :=
  ⟨by decide, retry_policy 7 (fun _ => (.error .unauthorized : Except ProviderError ℕ)) 6 100 (by decide)⟩

/-- C4: if extraction yields zero chunks, the pipeline terminates in
the `Failed` state with `EmptyInputError`: no Index is built and no
Summarize call is attempted, whatever the provider stages would have
returned. -/
theorem pipeline_empty_input (chunks : List String) (h : chunks = [])
    (embedRes : Except ErrKind (List (List ℚ))) (sumRes : Except ErrKind String) :
    runPipeline chunks embedRes sumRes =
      ⟨.failed .emptyInputError, false, 0, false⟩ := by
  subst h
  rfl

/-- Witness for C4 at an empty extraction result. -/
theorem pipeline_empty_input_witness :
    ([] : List String) = [] ∧
    runPipeline [] (.ok []) (.ok "answer") =
      ⟨.failed .emptyInputError, false, 0, false⟩ :=
  ⟨rfl, pipeline_empty_input [] rfl (.ok []) (.ok "answer")⟩

/-- C6: the process exit code is the success code exactly when the
pipeline reaches `Done`; when it reaches `Failed`, the exit code is
non-zero and the terminal error kind is written to the error stream. -/
theorem exit_code_spec (chunks : List String) (embedRes : Except ErrKind (List (List ℚ)))
    (sumRes : Except ErrKind String) :
    (exitCode (runPipeline chunks embedRes sumRes).outcome = 0 ↔
      (runPipeline chunks embedRes sumRes).outcome = .done) ∧
    (∀ e, (runPipeline chunks embedRes sumRes).outcome = .failed e →
      exitCode (runPipeline chunks embedRes sumRes).outcome ≠ 0 ∧
      errKindName e ∈ stderrOf (runPipeline chunks embedRes sumRes).outcome) := by
  cases chunks <;> cases embedRes <;> cases sumRes <;>
    simp [runPipeline, exitCode, stderrOf]

/-- Witness for C6 at a failing (empty-input) run. -/
theorem exit_code_spec_witness :
    (exitCode (runPipeline [] (.ok []) (.ok "a")).outcome = 0 ↔
      (runPipeline [] (.ok []) (.ok "a")).outcome = .done) ∧
    (∀ e, (runPipeline [] (.ok []) (.ok "a")).outcome = .failed e →
      exitCode (runPipeline [] (.ok []) (.ok "a")).outcome ≠ 0 ∧
      errKindName e ∈ stderrOf (runPipeline [] (.ok []) (.ok "a")).outcome) :=
  exit_code_spec [] (.ok []) (.ok "a")

/-- The digit character of `n % 10` is a decimal digit. -/
theorem digitChar_mod_isDigit (n : ℕ) : (Nat.digitChar (n % 10)).isDigit = true := by
  have h : n % 10 < 10 := Nat.mod_lt _ (by norm_num)
  set m := n % 10 with hm
  interval_cases m <;> decide

/-- Every rendered timestamp has the `YYYY-MM-DD HH:mm:ss` shape. -/
theorem formatTimestamp_wellFormed (m : Moment) :
    isTimestampFormat (formatTimestamp m) = true := by
  simp [formatTimestamp, pad4, pad2, isTimestampFormat, digitChar_mod_isDigit]

/-- C7: both persisted artifacts of a run (the raw fetched content in
the cache directory and the final answer text in the record directory)
are stored under a key that starts with a timestamp in the fixed
`YYYY-MM-DD HH:mm:ss` format, rendered from a wall-clock reading taken
in the single designated timezone `Asia/Seoul`. -/
theorem persisted_keys_timestamped (eff : Effects) :
    (∃ ts, (runMain eff).cacheFileName = ts ++ "-response.html".toList ∧
      isTimestampFormat ts = true ∧ ts = formatTimestamp (eff.wallClock seoulZone 0)) ∧
    (∃ ts, (runMain eff).recordFileName = ts ++ "-record.txt".toList ∧
      isTimestampFormat ts = true ∧ ts = formatTimestamp (eff.wallClock seoulZone 1)) ∧
    seoulZone = "Asia/Seoul" :=
  ⟨⟨_, rfl, formatTimestamp_wellFormed _, rfl⟩,
   ⟨_, rfl, formatTimestamp_wellFormed _, rfl⟩, rfl⟩

/-- C9: within a single run, `main` performs two independent fetches of
`config.domain`: the cached artifact is the body of the first (axios)
fetch, while the content that is extracted, chunked and summarized
comes from the second (CheerioWebBaseLoader) fetch; and there is an
environment in which the two bodies differ, so the persisted raw
artifact is not guaranteed to equal the document the summary was
produced from. -/
theorem double_fetch :
    (∀ eff : Effects,
      (runMain eff).fetchUrls = [configDomain, configDomain] ∧
      (runMain eff).cacheContent = eff.fetch 0 ∧
      (runMain eff).loadedContent = eff.fetch 1 ∧
      (runMain eff).chunks = eff.splitDocs (eff.extractItems (eff.fetch 1))) ∧
    (∃ eff : Effects, (runMain eff).cacheContent ≠ (runMain eff).loadedContent) := by
  refine ⟨fun eff => ⟨rfl, rfl, rfl, rfl⟩, ⟨effZero, ?_⟩⟩
  show (if (0 : ℕ) = 0 then "first" else "second") ≠ (if (1 : ℕ) = 0 then "first" else "second")
  norm_num
  decide

/-- Folding the logger over a message list appends consecutively
numbered steps starting at the current counter value. -/
theorem foldl_logStep_steps (clock : ℕ → ℚ) :
    ∀ (msgs : List String) (st : LogState),
      ((msgs.foldl (logTimeWriteOutStep clock) st).logs).map LogEntry.step
        = st.logs.map LogEntry.step ++ List.range' st.currentStep msgs.length := by
  intro msgs
  induction msgs with
  | nil => intro st; simp
  | cons m ms ih =>
    intro st
    rw [List.foldl_cons, ih]
    simp only [logTimeWriteOutStep, List.length_cons, List.range'_succ, List.map_append]
    simp

/-- Folding the logger over a message list records the elapsed times of
consecutive clock readings, measured from reading 0. -/
theorem foldl_logStep_elapsed (clock : ℕ → ℚ) :
    ∀ (msgs : List String) (st : LogState),
      ((msgs.foldl (logTimeWriteOutStep clock) st).logs).map LogEntry.elapsed
        = st.logs.map LogEntry.elapsed ++
          (List.range' st.clockIdx msgs.length).map (fun i => (clock i - clock 0) / 1000) := by
  intro msgs
  induction msgs with
  | nil => intro st; simp
  | cons m ms ih =>
    intro st
    rw [List.foldl_cons, ih]
    simp only [logTimeWriteOutStep, List.length_cons, List.range'_succ, List.map_append]
    simp

/-- A step-monotone function is chain-monotone over any `range'`. -/
theorem chain_le_map_range' (f : ℕ → ℚ) (hf : ∀ i, f i ≤ f (i + 1)) :
    ∀ n s, List.Chain' (· ≤ ·) ((List.range' s n).map f) := by
  intro n
  induction n with
  | zero => intro s; simp
  | succ n ih =>
    intro s
    cases n with
    | zero => simp
    | succ m =>
      rw [List.range'_succ, List.map_cons]
      have h2 := ih (s + 1)
      rw [List.range'_succ, List.map_cons] at h2 ⊢
      exact List.chain'_cons.mpr ⟨hf s, h2⟩

/-- C10 counterexample: on a successful run the logged step numbers are
not the consecutive integers 1 through 14 — `main` logs only 12
messages. -/
theorem log_steps_fourteen_refuted :
    ¬ (((runMain effZero).logs).map LogEntry.step = List.range' 1 14) := by
  decide

/-- C10 (amended): every log line of a successful run carries a step
number from the shared counter that starts at 1 and increases by
exactly 1 per logged message, so the logged step numbers are the
consecutive integers 1 through 12; and if the performance clock is
monotone, each line's elapsed time since process start is
non-decreasing across successive log lines. -/
theorem log_steps_amended (eff : Effects)
    (hmono : ∀ i j, i ≤ j → eff.perfNow i ≤ eff.perfNow j) :
    ((runMain eff).logs).map LogEntry.step = List.range' 1 12 ∧
    List.Chain' (· ≤ ·) (((runMain eff).logs).map LogEntry.elapsed) := by
  have hlen : (mainMessages eff.answerText).length = 12 := rfl
  constructor
  · show ((runLogs eff.perfNow eff.answerText)).map LogEntry.step = List.range' 1 12
    rw [runLogs, foldl_logStep_steps, hlen]
    simp
  · show List.Chain' (· ≤ ·) ((runLogs eff.perfNow eff.answerText).map LogEntry.elapsed)
    rw [runLogs, foldl_logStep_elapsed, hlen]
    simp only [List.map_nil, List.nil_append]
    refine chain_le_map_range' _ ?_ 12 1
    intro i
    have h := hmono i (i + 1) (by omega)
    have h1000 : (0 : ℚ) < 1000 := by norm_num
    apply div_le_div_of_nonneg_right ?_ h1000.le
    linarith

/-- Witness for the amended C10 at a constant clock. -/
theorem log_steps_amended_witness :
    (∀ i j, i ≤ j → effZero.perfNow i ≤ effZero.perfNow j) ∧
    (((runMain effZero).logs).map LogEntry.step = List.range' 1 12 ∧
     List.Chain' (· ≤ ·) (((runMain effZero).logs).map LogEntry.elapsed)) :=
  ⟨fun i j h => le_refl 0, log_steps_amended effZero (fun i j h => le_refl 0)⟩
